import Mathlib

/-!
# wsRemoteExec: the broadcast hub and the duplex pump

A shallow embedding of `ws_repeater/hub.go` (the control loop of the hub) and of
`remote/remoteclient.go` (`pumpStdin`, `pumpStdout`), followed by the properties
proved about them.

Conventions
* A Go `string` / `[]byte` is a list of bytes, each byte a natural number.
* A Go panic is the value `none`.
* Effects on the outside world (socket, subprocess pipe, log) are recorded in
  the order in which the code performs them.
-/

/-- A Go byte string. -/
abbrev Bytes := List Nat

/-- The bytes of an ASCII literal. -/
def ascii (s : String) : Bytes := s.toList.map Char.toNat

namespace WsRepeater

/-- Identity of a `*Client` (the pointer value). -/
abbrev ClientRef := Nat

/-- A Go channel of messages as the runtime keeps it: the buffered messages
(oldest first), the capacity fixed by `make` (0 for an unbuffered channel),
whether `close` has been called, and the number of goroutines blocked in a
receive on it. `handed` records, oldest first, the messages that a send passed
straight to a blocked receiver without going through the buffer. The `Client`
declaration is not part of the sources, so the capacity is a free field of every
queue. -/
structure Chan where
  buf : List Bytes
  cap : Nat
  closed : Bool
  receivers : Nat
  handed : List Bytes
deriving DecidableEq

/-- A send on the open queue would block: no receiver is waiting and the buffer
has no room. -/
def Chan.blocks (ch : Chan) : Bool := decide (ch.receivers = 0 ∧ ch.cap ≤ ch.buf.length)

/-- The queue after one more message went in at the back of the buffer. -/
def Chan.enqueue (ch : Chan) (m : Bytes) : Chan := { ch with buf := ch.buf ++ [m] }

/-- The queue after a message was passed straight to one blocked receiver. -/
def Chan.hand (ch : Chan) (m : Bytes) : Chan :=
  { ch with receivers := ch.receivers - 1, handed := ch.handed ++ [m] }

/-- The same queue, marked closed; closing wakes every blocked receiver. -/
def Chan.close (ch : Chan) : Chan := { ch with closed := true, receivers := 0 }

/-- Go `close(ch)`: closing a closed channel panics. -/
def closeChan (ch : Chan) : Option Chan :=
  if ch.closed then none else some ch.close

/-- Outcome of `select { case ch <- m: ... default: ... }`. -/
inductive SendResult where
  | sent (ch : Chan)
  | wouldBlock
  | panicked
deriving DecidableEq

/-- Go non-blocking send, in the order of the runtime: a send on a closed
channel panics; a send that finds a blocked receiver passes the message to it;
a send that finds room in the buffer stores the message; otherwise the
`default` branch is taken. -/
def trySend (ch : Chan) (m : Bytes) : SendResult :=
  if ch.closed then .panicked
  else if 0 < ch.receivers then .sent (ch.hand m)
  else if ch.buf.length < ch.cap then .sent (ch.enqueue m)
  else .wouldBlock

/-- The `Hub` struct: its ID and the key set of `clients map[*Client]bool`
(every stored value is `true`; the code only tests presence). The request
channels are represented by the list of requests fed to `run`. -/
structure Hub where
  ID : String
  clients : List ClientRef
  nodup : clients.Nodup

/-- The hub together with the send queue of every client reference. -/
structure World where
  hub : Hub
  send : ClientRef → Chan

/-- Go `newHub(id)`. -/
def newHub (id : String) : Hub := { ID := id, clients := [], nodup := List.nodup_nil }

/-- Go `h.clients[client] = true`. -/
def Hub.insert (h : Hub) (c : ClientRef) : Hub :=
  { h with clients := List.insert c h.clients, nodup := h.nodup.insert }

/-- Go `delete(h.clients, client)`. -/
def Hub.delete (h : Hub) (c : ClientRef) : Hub :=
  { h with clients := h.clients.filter (fun x => decide (x ≠ c)),
           nodup := h.nodup.filter _ }

/-- Case `client := <-h.register`. -/
def register (c : ClientRef) (w : World) : World :=
  { w with hub := w.hub.insert c }

/-- Case `client := <-h.unregister`. -/
def unregister (c : ClientRef) (w : World) : Option World :=
  if c ∈ w.hub.clients then
    (closeChan (w.send c)).map fun ch =>
      { hub := w.hub.delete c, send := Function.update w.send c ch }
  else some w

/-- One iteration of `for client := range h.clients` in the broadcast case. -/
def broadcastOne (m : Bytes) (c : ClientRef) (w : World) : Option World :=
  match trySend (w.send c) m with
  | .sent ch => some { w with send := Function.update w.send c ch }
  | .wouldBlock =>
    (closeChan (w.send c)).map fun ch =>
      { hub := w.hub.delete c, send := Function.update w.send c ch }
  | .panicked => none

/-- The range loop of the broadcast case, visiting the keys in the given order
(Go leaves the order of a map range unspecified). -/
def broadcastLoop (m : Bytes) : List ClientRef → World → Option World
  | [], w => some w
  | c :: cs, w => (broadcastOne m c w).bind (broadcastLoop m cs)

/-- Case `message := <-h.broadcast`, visiting the keys in stored order. -/
def broadcast (m : Bytes) (w : World) : Option World :=
  broadcastLoop m w.hub.clients w

/-- A request received by the `select` of `run`. -/
inductive Request where
  | register (c : ClientRef)
  | unregister (c : ClientRef)
  | broadcast (m : Bytes)
deriving DecidableEq

/-- One turn of the `for { select { ... } }` loop of `Hub.run`. -/
def step (w : World) : Request → Option World
  | .register c => some (register c w)
  | .unregister c => unregister c w
  | .broadcast m => broadcast m w

/-- The control loop `Hub.run` on a finite sequence of requests. -/
def run : World → List Request → Option World
  | w, [] => some w
  | w, r :: rs => (step w r).bind fun w1 => run w1 rs

/-- Every registered client has an open send queue. -/
def RegisteredOpen (w : World) : Prop :=
  ∀ c ∈ w.hub.clients, (w.send c).closed = false

/-- Every register request of the sequence names a client whose queue is open
at the moment the request is processed. -/
def registersOpen : World → List Request → Bool
  | _, [] => true
  | w, r :: rs =>
    (match r with
      | .register c => !(w.send c).closed
      | _ => true) &&
    (match step w r with
      | some w1 => registersOpen w1 rs
      | none => true)

/-- The first register request for each client names a client whose queue is
open at that moment; `seen` lists the clients registered earlier. -/
def firstRegistersOpen : List ClientRef → World → List Request → Bool
  | _, _, [] => true
  | seen, w, r :: rs =>
    (match r with
      | .register c => decide (c ∈ seen) || !(w.send c).closed
      | _ => true) &&
    (match step w r with
      | some w1 =>
        firstRegistersOpen
          (match r with
            | .register c => c :: seen
            | _ => seen) w1 rs
      | none => true)

/-- What one broadcast of `m` does to an open queue. -/
def deliver (m : Bytes) (ch : Chan) : Chan :=
  if ch.blocks then ch.close
  else if 0 < ch.receivers then ch.hand m
  else ch.enqueue m

/-- An open empty queue of capacity `cap` with no receiver blocked on it. -/
def freshChan (cap : Nat) : Chan :=
  { buf := [], cap := cap, closed := false, receivers := 0, handed := [] }

/-- A fresh world: the hub of `newHub id` and, for every client reference, an
open empty queue of capacity `cap` with no receiver blocked on it. -/
def freshWorld (id : String) (cap : Nat) : World :=
  { hub := newHub id, send := fun _ => freshChan cap }

/-- A world with clients 0, 1 and 2 registered under hub "h1", all queues open
with capacity 1: the queue of client 0 is empty, the queue of client 1 is full,
and a receiver is blocked on the empty queue of client 2. -/
def sampleWorld : World :=
  { hub := { ID := "h1", clients := [0, 1, 2], nodup := by decide },
    send := fun c =>
      if c = 1 then { buf := [ascii "x"], cap := 1, closed := false, receivers := 0, handed := [] }
      else if c = 2 then { buf := [], cap := 1, closed := false, receivers := 1, handed := [] }
      else freshChan 1 }

/-- A world with client 0 registered under hub "h1" on an open unbuffered queue
(capacity 0) with one receiver blocked on it. -/
def unbufferedWorld : World :=
  { hub := { ID := "h1", clients := [0], nodup := by decide },
    send := fun _ => { buf := [], cap := 0, closed := false, receivers := 1, handed := [] } }

/-- A world with an empty hub "h1" in which every queue is open and empty with
capacity 1 and has one receiver blocked on it. -/
def waitingWorld : World :=
  { hub := newHub "h1",
    send := fun _ => { buf := [], cap := 1, closed := false, receivers := 1, handed := [] } }

end WsRepeater

namespace Remote

/-- Go `time.Second`, in nanoseconds. -/
def second : Nat := 1000000000

/-- Time allowed to write a message to the peer. -/
def writeWait : Nat := 10 * second

/-- Maximum message size allowed from peer. -/
def maxMessageSize : Nat := 8192

/-- Time allowed to read the next pong message from the peer. -/
def pongWait : Nat := 60 * second

/-- Send pings to peer with this period. -/
def pingPeriod : Nat := (pongWait * 9) / 10

/-- Time to wait before force close on connection. -/
def closeGracePeriod : Nat := 10 * second

/-- The websocket status code `websocket.CloseNormalClosure`. -/
def CloseNormalClosure : Nat := 1000

/-- The newline byte. -/
def newline : Nat := 10

/-- The literal `"\"Cmd:"` of the marker test: double quote, C, m, d, colon. -/
def marker : Bytes := [34, 67, 109, 100, 58]

/-- The literal `"Cmd: "` removed from the decoded text: C, m, d, colon, space. -/
def cmdLiteral : Bytes := [67, 109, 100, 58, 32]

/-- Go `strings.HasPrefix`. -/
def HasPrefix (s p : Bytes) : Bool := p.isPrefixOf s

/-- Go `strings.TrimPrefix`. -/
def TrimPrefix (s p : Bytes) : Bytes :=
  if HasPrefix s p then s.drop p.length else s

/-- Go `strings.Split(s, "\n")`: the pieces of `s` between newline bytes; a
string without newline (the empty one included) gives one piece. -/
def Split : Bytes → List Bytes
  | [] => [[]]
  | b :: bs =>
    if b = newline then [] :: Split bs
    else
      match Split bs with
      | [] => [[b]]
      | l :: ls => (b :: l) :: ls

/-- Go `strings.Join(pieces, "\n")`. -/
def Join : List Bytes → Bytes
  | [] => []
  | [l] => l
  | l :: k :: rest => l ++ newline :: Join (k :: rest)

/-- What the two pumps do to the outside world, one constructor per call. -/
inductive Effect where
  | SetReadLimit (n : Nat)
  | SetReadDeadline (d : Nat)
  | SetPongHandler
  | ReadMessage (r : Option Bytes)
  | PrintUnquoteError
  | LogExecuting (cmd : Bytes)
  | Write (data : Bytes) (ok : Bool)
  | SetWriteDeadline (d : Nat)
  | WriteText (payload : Bytes) (ok : Bool)
  | LogScan
  | CloseDone
  | WriteClose (code : Nat) (text : Bytes) (ok : Bool)
  | Sleep (d : Nat)
  | Close
deriving DecidableEq

/-- How the body of the receive loop leaves: `continue` / fall through to the
next turn, or `return`. -/
inductive Flow where
  | next
  | stop
deriving DecidableEq

/-- Result of one turn of the receive loop: the state of the subprocess input
stream, the effects of the turn in order, and how the turn leaves. -/
structure Turn (σ : Type) where
  st : σ
  effects : List Effect
  flow : Flow

/-- The loop `for _, line := range lines { w.Write(line + "\n") ... break }`.
`Write s data` is the `io.Writer`: from state `s` it takes `data` and reports
the new state and whether the call returned a nil error. -/
def writeLines {σ : Type} (Write : σ → Bytes → σ × Bool) : σ → List Bytes → σ × List Effect
  | s, [] => (s, [])
  | s, line :: rest =>
    let r := Write s (line ++ [newline])
    if r.2 then
      let t := writeLines Write r.1 rest
      (t.1, Effect.Write (line ++ [newline]) true :: t.2)
    else (r.1, [Effect.Write (line ++ [newline]) false])

/-- The body of the receive loop of `pumpStdin` for one received message.
`Unquote` is `strconv.Unquote` of the Go library (`none` is its error). -/
def onMessage {σ : Type} (Unquote : Bytes → Option Bytes) (Write : σ → Bytes → σ × Bool)
    (s : σ) (message : Bytes) : Turn σ :=
  if !HasPrefix message marker then
    { st := s, effects := [], flow := Flow.next }
  else
    match Unquote message with
    | none => { st := s, effects := [Effect.PrintUnquoteError], flow := Flow.stop }
    | some unquoted =>
      let unquoted := TrimPrefix unquoted cmdLiteral
      let lines := Split unquoted
      let cmd : Bytes := []
      let r := writeLines Write s lines
      { st := r.1, effects := Effect.LogExecuting cmd :: r.2, flow := Flow.next }

/-- The receive loop of `pumpStdin`. The list holds the messages that
`ws.ReadMessage` returns successfully, in order; the read after the last of
them fails. -/
def readLoop {σ : Type} (Unquote : Bytes → Option Bytes) (Write : σ → Bytes → σ × Bool) :
    List Bytes → σ → σ × List Effect
  | [], s => (s, [Effect.ReadMessage none])
  | message :: later, s =>
    let t := onMessage Unquote Write s message
    match t.flow with
    | Flow.next =>
      let r := readLoop Unquote Write later t.st
      (r.1, Effect.ReadMessage (some message) :: (t.effects ++ r.2))
    | Flow.stop => (t.st, Effect.ReadMessage (some message) :: t.effects)

/-- Go `pumpStdin`. -/
def pumpStdin {σ : Type} (Unquote : Bytes → Option Bytes) (Write : σ → Bytes → σ × Bool)
    (messages : List Bytes) (s : σ) : σ × List Effect :=
  let r := readLoop Unquote Write messages s
  (r.1, [Effect.SetReadLimit maxMessageSize, Effect.SetReadDeadline pongWait,
      Effect.SetPongHandler] ++ r.2 ++ [Effect.Close])

/-- The loop `for s.Scan() { ... }` of `pumpStdout`. Each entry is a line that
the scanner yields, paired with whether sending it succeeds. The result holds
the effects and whether the loop left through `break`. -/
def scanLoop : List (Bytes × Bool) → List Effect × Bool
  | [] => ([], false)
  | (line, ok) :: rest =>
    if ok then
      let t := scanLoop rest
      (Effect.SetWriteDeadline writeWait :: Effect.WriteText line true :: t.1, t.2)
    else
      ([Effect.SetWriteDeadline writeWait, Effect.WriteText line false, Effect.Close], true)

/-- The statements of `pumpStdout` after the scan loop and the error log.
`connOpen` says whether the connection is still open, that is, whether the loop
did not call `ws.Close()`; `frameOk` says whether the write of the Close frame
succeeds on an open connection. A write on a closed connection fails. -/
def shutdownSequence (connOpen frameOk : Bool) : List Effect :=
  [Effect.CloseDone, Effect.SetWriteDeadline writeWait,
    Effect.WriteClose CloseNormalClosure [] (connOpen && frameOk),
    Effect.Sleep closeGracePeriod, Effect.Close]

/-- Go `pumpStdout`. `tokens` are the lines the scanner yields while the loop
runs, `scanErr` says whether `s.Err()` is non-nil once the loop is left (by
`Scan` returning false or by `break`), `frameOk` whether the Close frame can be
written if the connection is still open. -/
def pumpStdout (tokens : List (Bytes × Bool)) (scanErr frameOk : Bool) : List Effect :=
  let t := scanLoop tokens
  t.1 ++ (if scanErr then [Effect.LogScan] else []) ++ shutdownSequence (!t.2) frameOk

/-- The subprocess writes among some effects, in order. -/
def writesOf : List Effect → List (Bytes × Bool)
  | [] => []
  | Effect.Write d ok :: es => (d, ok) :: writesOf es
  | _ :: es => writesOf es

/-- The payloads of the text messages among some effects, in order. -/
def payloadsOf : List Effect → List Bytes
  | [] => []
  | Effect.WriteText p _ :: es => p :: payloadsOf es
  | _ :: es => payloadsOf es

/-- A decoder to put in place of `Unquote` in examples: on a double-quoted
ASCII literal whose only escapes are backslash-n, backslash-t, backslash-quote
and backslash-backslash it returns what `strconv.Unquote` returns; it rejects
every other input. -/
def unescapeBody : Bytes → Option Bytes
  | [] => none
  | [b] => if b = 34 then some [] else none
  | b :: c :: rest =>
    if b = 34 then none
    else if b = 92 then
      if c = 110 then (unescapeBody rest).map (fun t => 10 :: t)
      else if c = 116 then (unescapeBody rest).map (fun t => 9 :: t)
      else if c = 34 then (unescapeBody rest).map (fun t => 34 :: t)
      else if c = 92 then (unescapeBody rest).map (fun t => 92 :: t)
      else none
    else if b = 10 ∨ 128 ≤ b then none
    else (unescapeBody (c :: rest)).map (fun t => b :: t)

/-- See `unescapeBody`. -/
def unquoteSample : Bytes → Option Bytes
  | [] => none
  | q :: body => if q = 34 then unescapeBody body else none

/-- The bytes `body` between two double quotes. -/
def inQuotes (body : Bytes) : Bytes := 34 :: body ++ [34]

/-- A subprocess input stream that stores what it is given and never fails. -/
def storeWrite (s : List Bytes) (data : Bytes) : List Bytes × Bool := (s ++ [data], true)

/-- A subprocess input stream that accepts `s` more writes and then fails. -/
def budgetWrite (s : Nat) (_data : Bytes) : Nat × Bool := (s - 1, decide (0 < s))

end Remote


namespace WsRepeater

theorem Hub.ext_clients {h1 h2 : Hub} (hid : h1.ID = h2.ID) (hc : h1.clients = h2.clients) :
    h1 = h2 := by
  cases h1; cases h2; simp at hid hc; subst hid; subst hc; rfl

theorem broadcastOne_open (m : Bytes) (c : ClientRef) (w : World)
    (h : (w.send c).closed = false) :
    broadcastOne m c w = some
      { hub := if (w.send c).blocks then w.hub.delete c else w.hub,
        send := Function.update w.send c (deliver m (w.send c)) } := by
  unfold broadcastOne trySend deliver closeChan Chan.blocks
  by_cases hr : 0 < (w.send c).receivers
  · have hr0 : (w.send c).receivers ≠ 0 := by omega
    simp [h, hr, hr0]
  · have hr0 : (w.send c).receivers = 0 := by omega
    by_cases hlt : (w.send c).buf.length < (w.send c).cap
    · have : ¬ (w.send c).cap ≤ (w.send c).buf.length := by omega
      simp [h, hr0, hlt, this]
    · have : (w.send c).cap ≤ (w.send c).buf.length := by omega
      simp [h, hr0, hlt, this]

theorem broadcastLoop_spec (m : Bytes) :
    ∀ (order : List ClientRef) (w : World), order.Nodup →
      (∀ c ∈ order, (w.send c).closed = false) →
      ∃ w1, broadcastLoop m order w = some w1 ∧ w1.hub.ID = w.hub.ID ∧
        w1.hub.clients
          = w.hub.clients.filter (fun c => !(decide (c ∈ order) && (w.send c).blocks)) ∧
        ∀ c, w1.send c = if c ∈ order then deliver m (w.send c) else w.send c := by
  intro order
  induction order with
  | nil =>
    intro w _ _
    exact ⟨w, rfl, rfl, by simp, by simp⟩
  | cons c cs ih =>
    intro w hnd hopen
    have hc : c ∉ cs := (List.nodup_cons.mp hnd).1
    have hcs : cs.Nodup := (List.nodup_cons.mp hnd).2
    have hco : (w.send c).closed = false := hopen c (List.mem_cons_self c cs)
    obtain ⟨w1, hrun, hid, hcl, hsend⟩ := ih
      { hub := if (w.send c).blocks then w.hub.delete c else w.hub,
        send := Function.update w.send c (deliver m (w.send c)) } hcs (by
        intro d hd
        have hdc : d ≠ c := fun e => hc (e ▸ hd)
        simpa [Function.update_noteq hdc] using hopen d (List.mem_cons_of_mem c hd))
    refine ⟨w1, ?_, ?_, ?_, ?_⟩
    · simp only [broadcastLoop, broadcastOne_open m c w hco, Option.some_bind]
      exact hrun
    · rw [hid]; split <;> rfl
    · rw [hcl]
      by_cases hf : (w.send c).blocks = true
      · simp only [hf, if_true, Hub.delete, List.filter_filter]
        apply List.filter_congr
        intro d _
        by_cases hdc : d = c
        · subst hdc; simp [hf]
        · simp [hdc, Function.update_noteq hdc]
      · simp only [hf]
        apply List.filter_congr
        intro d _
        by_cases hdc : d = c
        · subst hdc; simp [hf, hc]
        · simp [hdc, Function.update_noteq hdc]
    · intro d
      rw [hsend d]
      by_cases hdc : d = c
      · subst hdc; simp [hc]
      · simp [hdc, Function.update_noteq hdc]

end WsRepeater

namespace WsRepeater

theorem World.ext_parts {w1 w2 : World} (hid : w1.hub.ID = w2.hub.ID)
    (hc : w1.hub.clients = w2.hub.clients) (hs : ∀ c, w1.send c = w2.send c) : w1 = w2 := by
  cases w1 with
  | mk h1 s1 =>
    cases w2 with
    | mk h2 s2 =>
      have e1 : h1 = h2 := Hub.ext_clients hid hc
      have e2 : s1 = s2 := funext hs
      subst e1; subst e2; rfl

theorem broadcast_spec (m : Bytes) (w : World) (hopen : RegisteredOpen w) :
    ∃ w1, broadcast m w = some w1 ∧ w1.hub.ID = w.hub.ID ∧
      w1.hub.clients = w.hub.clients.filter (fun c => !(w.send c).blocks) ∧
      ∀ c, w1.send c = if c ∈ w.hub.clients then deliver m (w.send c) else w.send c := by
  obtain ⟨w1, h1, h2, h3, h4⟩ := broadcastLoop_spec m w.hub.clients w w.hub.nodup hopen
  refine ⟨w1, h1, h2, ?_, h4⟩
  rw [h3]
  apply List.filter_congr
  intro d hd
  simp [hd]

theorem broadcastLoop_perm (m : Bytes) (w : World) (hopen : RegisteredOpen w)
    (order : List ClientRef) (hp : order.Perm w.hub.clients) :
    broadcastLoop m order w = broadcast m w := by
  obtain ⟨w1, h1, h2, h3, h4⟩ := broadcast_spec m w hopen
  obtain ⟨w2, k1, k2, k3, k4⟩ := broadcastLoop_spec m order w (hp.nodup_iff.mpr w.hub.nodup)
    (fun c hc => hopen c (hp.mem_iff.mp hc))
  rw [h1, k1]
  congr 1
  apply World.ext_parts
  · rw [h2, k2]
  · rw [h3, k3]
    apply List.filter_congr
    intro d hd
    simp [hp.mem_iff.mpr hd]
  · intro c
    rw [h4, k4]
    simp [hp.mem_iff]

theorem blocks_iff (ch : Chan) :
    ch.blocks = true ↔ ch.receivers = 0 ∧ ch.cap ≤ ch.buf.length := by
  simp [Chan.blocks]

theorem deliver_of_blocks (m : Bytes) (ch : Chan) (h : ch.blocks = true) :
    deliver m ch = ch.close := by
  simp [deliver, h]

theorem deliver_of_receiver (m : Bytes) (ch : Chan) (h : 0 < ch.receivers) :
    ch.blocks = false ∧ deliver m ch = ch.hand m := by
  have hb : ch.blocks = false := by
    have h0 : ch.receivers ≠ 0 := by omega
    simp [Chan.blocks, h0]
  exact ⟨hb, by simp [deliver, hb, h]⟩

theorem deliver_of_room (m : Bytes) (ch : Chan) (h0 : ch.receivers = 0)
    (h : ch.buf.length < ch.cap) :
    ch.blocks = false ∧ deliver m ch = ch.enqueue m := by
  have hb : ch.blocks = false := by
    simp [Chan.blocks, h0, h]
  exact ⟨hb, by simp [deliver, hb, h0]⟩

theorem deliver_stays_open (m : Bytes) (ch : Chan) (hb : ch.blocks = false)
    (ho : ch.closed = false) : (deliver m ch).closed = false := by
  unfold deliver
  rw [hb]
  simp only [Bool.false_eq_true, if_false]
  split
  · exact ho
  · exact ho

theorem broadcast_keeps_open (m : Bytes) (w : World) (hopen : RegisteredOpen w) :
    ∃ w1, broadcast m w = some w1 ∧ RegisteredOpen w1 := by
  obtain ⟨w1, h1, _, h3, h4⟩ := broadcast_spec m w hopen
  refine ⟨w1, h1, ?_⟩
  intro c hc
  rw [h3, List.mem_filter] at hc
  have hf : (w.send c).blocks = false := by simpa using hc.2
  rw [h4 c, if_pos hc.1]
  exact deliver_stays_open m _ hf (hopen c hc.1)

theorem register_keeps_open (c : ClientRef) (w : World) (hopen : RegisteredOpen w)
    (hc : (w.send c).closed = false) : RegisteredOpen (register c w) := by
  intro d hd
  have hd2 : d ∈ List.insert c w.hub.clients := hd
  rw [List.mem_insert_iff] at hd2
  rcases hd2 with e | e
  · subst e; exact hc
  · exact hopen d e

theorem unregister_present (c : ClientRef) (w : World) (hc : c ∈ w.hub.clients)
    (ho : (w.send c).closed = false) :
    unregister c w = some
      { hub := w.hub.delete c, send := Function.update w.send c (w.send c).close } := by
  simp [unregister, hc, closeChan, ho]

theorem unregister_absent (c : ClientRef) (w : World) (hc : c ∉ w.hub.clients) :
    unregister c w = some w := by
  simp [unregister, hc]

theorem mem_delete (h : Hub) (c d : ClientRef) :
    d ∈ (h.delete c).clients ↔ d ∈ h.clients ∧ d ≠ c := by
  simp [Hub.delete, List.mem_filter]

theorem unregister_keeps_open (c : ClientRef) (w : World) (hopen : RegisteredOpen w) :
    ∃ w1, unregister c w = some w1 ∧ RegisteredOpen w1 := by
  by_cases hc : c ∈ w.hub.clients
  · refine ⟨_, unregister_present c w hc (hopen c hc), ?_⟩
    intro d hd
    have hd2 := (mem_delete w.hub c d).mp hd
    simpa [Function.update_noteq hd2.2] using hopen d hd2.1
  · exact ⟨w, unregister_absent c w hc, hopen⟩

theorem run_keeps_open :
    ∀ (reqs : List Request) (w : World), RegisteredOpen w → registersOpen w reqs = true →
      ∃ w1, run w reqs = some w1 ∧ RegisteredOpen w1 := by
  intro reqs
  induction reqs with
  | nil => intro w hw _; exact ⟨w, rfl, hw⟩
  | cons r rs ih =>
    intro w hw hreg
    have hstep : ∃ w1, step w r = some w1 ∧ RegisteredOpen w1 := by
      cases r with
      | register c =>
        refine ⟨register c w, rfl, register_keeps_open c w hw ?_⟩
        simp [registersOpen] at hreg
        exact hreg.1
      | unregister c => exact unregister_keeps_open c w hw
      | broadcast m => exact broadcast_keeps_open m w hw
    obtain ⟨w1, hs, hw1⟩ := hstep
    have hrest : registersOpen w1 rs = true := by
      simp [registersOpen, hs] at hreg
      exact hreg.2
    obtain ⟨w2, hr, hw2⟩ := ih w1 hw1 hrest
    exact ⟨w2, by simp [run, hs, hr], hw2⟩

end WsRepeater

namespace WsRepeater

/-- C1 (amended). One broadcast(M) step on a hub state whose registered clients
have open queues: the step completes, with the same result for every order in
which the map is visited. A registered client with a receiver blocked on its
queue stays registered, M is handed to that receiver and the buffer is
unchanged. A registered client with no blocked receiver and room in its queue
stays registered and its queue is the earlier contents followed by M. A
registered client with no blocked receiver and a full queue is removed and its
queue is closed with unchanged contents. Nobody else is touched, and a second
broadcast completes, leaves the removed clients removed and puts nothing on
their queues. -/
theorem broadcast_step_fanout (m : Bytes) (w : World) (hopen : RegisteredOpen w) :
    ∃ w1, step w (Request.broadcast m) = some w1 ∧
      (∀ order : List ClientRef, order.Perm w.hub.clients →
        broadcastLoop m order w = some w1) ∧
      (∀ c, c ∈ w.hub.clients → 0 < (w.send c).receivers →
        c ∈ w1.hub.clients ∧
        w1.send c = { buf := (w.send c).buf, cap := (w.send c).cap, closed := false,
                      receivers := (w.send c).receivers - 1,
                      handed := (w.send c).handed ++ [m] }) ∧
      (∀ c, c ∈ w.hub.clients → (w.send c).receivers = 0 →
        (w.send c).buf.length < (w.send c).cap →
        c ∈ w1.hub.clients ∧
        w1.send c = { buf := (w.send c).buf ++ [m], cap := (w.send c).cap, closed := false,
                      receivers := 0, handed := (w.send c).handed }) ∧
      (∀ c, c ∈ w.hub.clients → (w.send c).receivers = 0 →
        (w.send c).cap ≤ (w.send c).buf.length →
        c ∉ w1.hub.clients ∧
        w1.send c = { buf := (w.send c).buf, cap := (w.send c).cap, closed := true,
                      receivers := 0, handed := (w.send c).handed }) ∧
      (∀ c, c ∉ w.hub.clients → c ∉ w1.hub.clients ∧ w1.send c = w.send c) ∧
      (∀ m2 : Bytes, ∃ w2, step w1 (Request.broadcast m2) = some w2 ∧
        ∀ c, c ∈ w.hub.clients → (w.send c).receivers = 0 →
          (w.send c).cap ≤ (w.send c).buf.length →
          c ∉ w2.hub.clients ∧ w2.send c = w1.send c) := by
  obtain ⟨w1, h1, _, h3, h4⟩ := broadcast_spec m w hopen
  obtain ⟨w1', g1, g2⟩ := broadcast_keeps_open m w hopen
  have e : w1' = w1 := Option.some.inj (g1.symm.trans h1)
  subst e
  have hstay : ∀ c, c ∈ w.hub.clients → (w.send c).blocks = false → c ∈ w1'.hub.clients := by
    intro c hc hb
    rw [h3, List.mem_filter]
    exact ⟨hc, by simp [hb]⟩
  have hgone : ∀ c, c ∈ w.hub.clients → (w.send c).receivers = 0 →
      (w.send c).cap ≤ (w.send c).buf.length → c ∉ w1'.hub.clients := by
    intro c _ h0 hf hmem
    rw [h3, List.mem_filter] at hmem
    have hb : (w.send c).blocks = true := (blocks_iff _).mpr ⟨h0, hf⟩
    simp [hb] at hmem
  have hfullq : ∀ c, c ∈ w.hub.clients → (w.send c).receivers = 0 →
      (w.send c).cap ≤ (w.send c).buf.length →
      w1'.send c = { buf := (w.send c).buf, cap := (w.send c).cap, closed := true,
                     receivers := 0, handed := (w.send c).handed } := by
    intro c hc h0 hf
    rw [h4 c, if_pos hc, deliver_of_blocks m _ ((blocks_iff _).mpr ⟨h0, hf⟩)]
    rfl
  refine ⟨w1', h1, ?_, ?_, ?_,
    fun c hc h0 hf => ⟨hgone c hc h0 hf, hfullq c hc h0 hf⟩, ?_, ?_⟩
  · intro order hp
    rw [broadcastLoop_perm m w hopen order hp]; exact h1
  · intro c hc hr
    obtain ⟨hb, hd⟩ := deliver_of_receiver m (w.send c) hr
    refine ⟨hstay c hc hb, ?_⟩
    rw [h4 c, if_pos hc, hd]
    have ho := hopen c hc
    cases hch : w.send c with
    | mk b k cl r hd => simp [hch] at ho; simp [Chan.hand, ho]
  · intro c hc h0 hroom
    obtain ⟨hb, hd⟩ := deliver_of_room m (w.send c) h0 hroom
    refine ⟨hstay c hc hb, ?_⟩
    rw [h4 c, if_pos hc, hd]
    have ho := hopen c hc
    cases hch : w.send c with
    | mk b k cl r hd => simp [hch] at ho h0; simp [Chan.enqueue, ho, h0]
  · intro c hc
    refine ⟨?_, ?_⟩
    · intro hmem
      rw [h3, List.mem_filter] at hmem
      exact hc hmem.1
    · rw [h4 c, if_neg hc]
  · intro m2
    obtain ⟨w2, k1, _, k3, k4⟩ := broadcast_spec m2 w1' g2
    refine ⟨w2, k1, ?_⟩
    intro c hc h0 hf
    have hn := hgone c hc h0 hf
    refine ⟨?_, ?_⟩
    · intro hmem
      rw [k3, List.mem_filter] at hmem
      exact hn hmem.1
    · rw [k4 c, if_neg hn]

/-- Witness for `broadcast_step_fanout` on `sampleWorld`: client 0 gets the
payload in its queue, client 1 (full queue) is removed and closed, and the
payload is handed to the receiver blocked on the queue of client 2. -/
theorem broadcast_step_fanout_witness :
    RegisteredOpen sampleWorld ∧
    ∃ w1, step sampleWorld (Request.broadcast (ascii "hello")) = some w1 ∧
      (0 ∈ w1.hub.clients ∧
        w1.send 0 = { buf := [ascii "hello"], cap := 1, closed := false,
                      receivers := 0, handed := [] }) ∧
      (1 ∉ w1.hub.clients ∧
        w1.send 1 = { buf := [ascii "x"], cap := 1, closed := true,
                      receivers := 0, handed := [] }) ∧
      (2 ∈ w1.hub.clients ∧
        w1.send 2 = { buf := [], cap := 1, closed := false,
                      receivers := 0, handed := [ascii "hello"] }) := by
  have hopen : RegisteredOpen sampleWorld := by
    intro c hc
    simp [sampleWorld] at hc
    rcases hc with e | e | e <;> subst e <;> rfl
  obtain ⟨w1, h1, _, hrecv, hroom, hfull, _, _⟩ :=
    broadcast_step_fanout (ascii "hello") sampleWorld hopen
  exact ⟨hopen, w1, h1, hroom 0 (by decide) (by decide) (by decide),
    hfull 1 (by decide) (by decide) (by decide), hrecv 2 (by decide) (by decide)⟩

/-- C1 as stated fails. After register(0), unregister(0), register(0) on a new
hub, client 0 is registered and its queue is not full (empty, capacity 1) but
closed, and the broadcast step panics on the send instead of appending the
payload. And on an unbuffered queue (capacity 0, hence full) with a receiver
blocked on it, the broadcast step hands the payload to the receiver and leaves
the client registered with an open queue. -/
theorem broadcast_fails_on_closed_or_unbuffered :
    (run (freshWorld "h1" 1)
        [Request.register 0, Request.unregister 0, Request.register 0]).map
      (fun w => (w.hub.clients, w.send 0))
      = some ([0], { buf := [], cap := 1, closed := true, receivers := 0, handed := [] }) ∧
    ((run (freshWorld "h1" 1)
        [Request.register 0, Request.unregister 0, Request.register 0]).bind
      (fun w => step w (Request.broadcast (ascii "hello")))).isNone = true ∧
    (step unbufferedWorld (Request.broadcast (ascii "hello"))).map
      (fun w => (w.hub.clients, w.send 0))
      = some ([0], { buf := [], cap := 0, closed := false, receivers := 0,
                     handed := [ascii "hello"] }) := by
  decide

/-- C2 (amended). The unregister(c) step. When c is registered and its queue is
open, the step removes c, closes its queue keeping the contents (waking any
blocked receiver), and leaves the membership and queue of every other client
unchanged. When c is not registered the state is returned unchanged.
Consequently, from a state whose registered clients have open queues and in
which the queue of A is open, has room and has no receiver blocked on it,
register(A), broadcast(M), unregister(A) leaves the queue of A holding its
earlier contents followed by M and closed, A unregistered, and a further
broadcast completes and leaves that queue as it is. -/
theorem unregister_step_spec (w : World) (c : ClientRef) :
    (c ∈ w.hub.clients → (w.send c).closed = false →
      ∃ w1, step w (Request.unregister c) = some w1 ∧
        c ∉ w1.hub.clients ∧
        w1.send c = { buf := (w.send c).buf, cap := (w.send c).cap, closed := true,
                      receivers := 0, handed := (w.send c).handed } ∧
        ∀ d, d ≠ c → (d ∈ w1.hub.clients ↔ d ∈ w.hub.clients) ∧ w1.send d = w.send d) ∧
    (c ∉ w.hub.clients → step w (Request.unregister c) = some w) ∧
    (RegisteredOpen w → (w.send c).closed = false → (w.send c).receivers = 0 →
      (w.send c).buf.length < (w.send c).cap →
      ∀ m : Bytes, ∃ w3,
        run w [Request.register c, Request.broadcast m, Request.unregister c] = some w3 ∧
        w3.send c = { buf := (w.send c).buf ++ [m], cap := (w.send c).cap, closed := true,
                      receivers := 0, handed := (w.send c).handed } ∧
        c ∉ w3.hub.clients ∧
        ∀ m2 : Bytes, ∃ w4, step w3 (Request.broadcast m2) = some w4 ∧
          w4.send c = w3.send c ∧ c ∉ w4.hub.clients) := by
  refine ⟨?_, unregister_absent c w, ?_⟩
  · intro hc ho
    refine ⟨_, unregister_present c w hc ho, ?_, ?_, ?_⟩
    · intro hmem
      exact ((mem_delete w.hub c c).mp hmem).2 rfl
    · simp [Chan.close]
    · intro d hd
      refine ⟨?_, ?_⟩
      · constructor
        · intro hmem; exact ((mem_delete w.hub c d).mp hmem).1
        · intro hmem; exact (mem_delete w.hub c d).mpr ⟨hmem, hd⟩
      · simp [Function.update_noteq hd]
  · intro hopen ho h0 hroom m
    have hreg : RegisteredOpen (register c w) := register_keeps_open c w hopen ho
    have hcin : c ∈ (register c w).hub.clients := by
      show c ∈ List.insert c w.hub.clients
      exact List.mem_insert_self c _
    obtain ⟨w1, h1, g2⟩ := broadcast_keeps_open m (register c w) hreg
    obtain ⟨w1b, h1b, _, hcl, hsend⟩ := broadcast_spec m (register c w) hreg
    have e : w1b = w1 := Option.some.inj (h1b.symm.trans h1)
    subst e
    obtain ⟨hb, hd⟩ := deliver_of_room m (w.send c) h0 hroom
    have hc1 : c ∈ w1b.hub.clients := by
      rw [hcl, List.mem_filter]
      exact ⟨hcin, by simp [show ((register c w).send c).blocks = false from hb]⟩
    have hq1 : w1b.send c = (w.send c).enqueue m := by
      rw [hsend c, if_pos hcin]
      exact hd
    have ho1 : (w1b.send c).closed = false := g2 c hc1
    have hstep3 := unregister_present c w1b hc1 ho1
    have hw3open : RegisteredOpen
        { hub := w1b.hub.delete c, send := Function.update w1b.send c (w1b.send c).close } := by
      obtain ⟨w3, k1, k2⟩ := unregister_keeps_open c w1b g2
      have e3 := Option.some.inj (k1.symm.trans hstep3)
      rw [← e3]; exact k2
    have hc3 : c ∉ (w1b.hub.delete c).clients := fun hmem =>
      ((mem_delete w1b.hub c c).mp hmem).2 rfl
    refine ⟨{ hub := w1b.hub.delete c, send := Function.update w1b.send c (w1b.send c).close },
      ?_, ?_, hc3, ?_⟩
    · simp only [run, step, Option.some_bind]
      rw [h1]
      simp only [Option.some_bind]
      rw [hstep3]
      rfl
    · simp only [Function.update_same]
      rw [hq1]
      cases hch : w.send c with
      | mk b k cl r hd => simp [Chan.enqueue, Chan.close]
    · intro m2
      obtain ⟨w4, k1, _, k3, k4⟩ := broadcast_spec m2 _ hw3open
      refine ⟨w4, k1, ?_, ?_⟩
      · rw [k4 c, if_neg hc3]
      · intro hmem
        rw [k3, List.mem_filter] at hmem
        exact hc3 hmem.1

/-- Witness for `unregister_step_spec`: the scenario on hub "h1" with a fresh
client 0 whose queue has capacity 1. -/
theorem unregister_step_spec_witness :
    ∃ w3, run (freshWorld "h1" 1)
        [Request.register 0, Request.broadcast (ascii "hello"), Request.unregister 0]
        = some w3 ∧
      w3.send 0 = { buf := [ascii "hello"], cap := 1, closed := true,
                    receivers := 0, handed := [] } ∧
      0 ∉ w3.hub.clients ∧
      ∀ m2 : Bytes, ∃ w4, step w3 (Request.broadcast m2) = some w4 ∧
        w4.send 0 = w3.send 0 ∧ 0 ∉ w4.hub.clients :=
  (unregister_step_spec (freshWorld "h1" 1) 0).2.2
    (fun _ hc => absurd hc (List.not_mem_nil _)) rfl rfl (by decide) (ascii "hello")

/-- C2 as stated fails. After register(0), unregister(0), register(0) on a new
hub, client 0 is registered with a closed queue and unregister(0) panics on the
close instead of removing the client. And when a receiver is blocked on the
queue of client 0, register(0), broadcast("hello"), unregister(0) leaves that
queue closed but not holding "hello": the payload was handed to the receiver. -/
theorem unregister_fails_on_closed_queue :
    (run (freshWorld "h1" 1)
        [Request.register 0, Request.unregister 0, Request.register 0]).map
      (fun w => (w.hub.clients, (w.send 0).closed)) = some ([0], true) ∧
    ((run (freshWorld "h1" 1)
        [Request.register 0, Request.unregister 0, Request.register 0]).bind
      (fun w => step w (Request.unregister 0))).isNone = true ∧
    (run waitingWorld
        [Request.register 0, Request.broadcast (ascii "hello"), Request.unregister 0]).map
      (fun w => w.send 0)
      = some { buf := [], cap := 1, closed := true, receivers := 0,
               handed := [ascii "hello"] } := by
  decide

/-- C10 (amended). Starting from the hub of `newHub`, after every finite
sequence of register, unregister and broadcast requests in which each register
request names a client whose queue is open when the request is processed, the
control loop has processed every request without a panic (no close of a closed
queue, no send on a closed queue) and every registered client has an open
queue. -/
theorem run_registered_open (id : String) (send0 : ClientRef → Chan) (reqs : List Request)
    (h : registersOpen { hub := newHub id, send := send0 } reqs = true) :
    ∃ w, run { hub := newHub id, send := send0 } reqs = some w ∧ RegisteredOpen w :=
  run_keeps_open reqs { hub := newHub id, send := send0 }
    (fun _ hc => absurd hc (List.not_mem_nil _)) h

/-- Witness for `run_registered_open`. -/
theorem run_registered_open_witness :
    registersOpen (freshWorld "h1" 1)
        [Request.register 0, Request.register 1, Request.broadcast (ascii "a"),
          Request.broadcast (ascii "b"), Request.unregister 1, Request.register 2] = true ∧
    ∃ w, run (freshWorld "h1" 1)
        [Request.register 0, Request.register 1, Request.broadcast (ascii "a"),
          Request.broadcast (ascii "b"), Request.unregister 1, Request.register 2] = some w ∧
      RegisteredOpen w :=
  ⟨by decide, run_registered_open "h1" _ _ (by decide)⟩

/-- C10 as stated fails: client 0 has an open queue when it is first registered,
yet after register(0), unregister(0), register(0) it is registered with a closed
queue, and a broadcast then panics on the send. -/
theorem reregister_breaks_open_queues :
    firstRegistersOpen [] (freshWorld "h1" 1)
        [Request.register 0, Request.unregister 0, Request.register 0] = true ∧
    (run (freshWorld "h1" 1)
        [Request.register 0, Request.unregister 0, Request.register 0]).map
      (fun w => (w.hub.clients, (w.send 0).closed)) = some ([0], true) ∧
    (run (freshWorld "h1" 1)
        [Request.register 0, Request.unregister 0, Request.register 0,
          Request.broadcast (ascii "hello")]).isNone = true := by
  decide

end WsRepeater

namespace Remote

theorem Split_ne_nil (s : Bytes) : Split s ≠ [] := by
  cases s with
  | nil => simp [Split]
  | cons b bs =>
    unfold Split
    split
    · simp
    · split <;> simp

theorem Split_no_newline (s : Bytes) (h : newline ∉ s) : Split s = [s] := by
  induction s with
  | nil => rfl
  | cons b bs ih =>
    have hb : b ≠ newline := fun e => h (e ▸ List.mem_cons_self b bs)
    have hbs : newline ∉ bs := fun e => h (List.mem_cons_of_mem b e)
    simp [Split, hb, ih hbs]

theorem Join_Split (s : Bytes) : Join (Split s) = s := by
  induction s with
  | nil => rfl
  | cons b bs ih =>
    unfold Split
    by_cases hb : b = newline
    · simp only [hb, if_true]
      cases hs : Split bs with
      | nil => exact absurd hs (Split_ne_nil bs)
      | cons l ls => rw [hs] at ih; simp [Join, ih]
    · simp only [hb, if_false]
      cases hs : Split bs with
      | nil => exact absurd hs (Split_ne_nil bs)
      | cons l ls =>
        rw [hs] at ih
        cases ls with
        | nil => simp [Join] at ih ⊢; exact ih
        | cons k rest => simp [Join] at ih ⊢; exact ih

theorem Split_pieces (s : Bytes) : ∀ l ∈ Split s, newline ∉ l := by
  induction s with
  | nil => intro l hl; simp [Split] at hl; simp [hl]
  | cons b bs ih =>
    intro l hl
    unfold Split at hl
    by_cases hb : b = newline
    · simp only [hb, if_true, List.mem_cons] at hl
      rcases hl with e | e
      · simp [e]
      · exact ih l e
    · simp only [hb, if_false] at hl
      cases hs : Split bs with
      | nil => exact absurd hs (Split_ne_nil bs)
      | cons k ks =>
        rw [hs] at hl ih
        simp only [List.mem_cons] at hl
        rcases hl with e | e
        · subst e
          intro hmem
          rcases List.mem_cons.mp hmem with e2 | e2
          · exact hb e2.symm
          · exact ih k (List.mem_cons_self k ks) e2
        · exact ih l (List.mem_cons_of_mem k e)

theorem Split_length (s : Bytes) : (Split s).length = s.count newline + 1 := by
  induction s with
  | nil => rfl
  | cons b bs ih =>
    unfold Split
    by_cases hb : b = newline
    · simp [hb, ih]
    · have hb2 : ¬ (b == newline) = true := by simpa using hb
      simp only [hb, if_false]
      cases hs : Split bs with
      | nil => exact absurd hs (Split_ne_nil bs)
      | cons k ks =>
        rw [hs] at ih
        simp [List.count_cons, hb, ← ih]

theorem TrimPrefix_append (p s : Bytes) : TrimPrefix (p ++ s) p = s := by
  have h : HasPrefix (p ++ s) p = true := by
    simp [HasPrefix]
  simp [TrimPrefix, h]

/-- The writes of the line loop: a leading run of successful writes of the
lines in order, ended either by the last line or by the first failed write. -/
theorem writeLines_shape {σ : Type} (Write : σ → Bytes → σ × Bool) :
    ∀ (lines : List Bytes) (s : σ),
      (writeLines Write s lines).2 = lines.map (fun l => Effect.Write (l ++ [newline]) true) ∨
      ∃ pre lk post, lines = pre ++ lk :: post ∧
        (writeLines Write s lines).2
          = pre.map (fun l => Effect.Write (l ++ [newline]) true)
              ++ [Effect.Write (lk ++ [newline]) false] := by
  intro lines
  induction lines with
  | nil => intro s; left; rfl
  | cons l ls ih =>
    intro s
    by_cases hok : (Write s (l ++ [newline])).2 = true
    · rcases ih (Write s (l ++ [newline])).1 with h | ⟨pre, lk, post, e1, e2⟩
      · left; simp [writeLines, hok, h]
      · right
        refine ⟨l :: pre, lk, post, by simp [e1], ?_⟩
        simp [writeLines, hok, e2]
    · right
      refine ⟨[], l, ls, rfl, ?_⟩
      simp [writeLines, hok]

theorem writesOf_append (a b : List Effect) : writesOf (a ++ b) = writesOf a ++ writesOf b := by
  induction a with
  | nil => rfl
  | cons e es ih => cases e <;> simp [writesOf, ih]

theorem writesOf_map_write (ls : List Bytes) (ok : Bool) :
    writesOf (ls.map (fun l => Effect.Write (l ++ [newline]) ok))
      = ls.map (fun l => (l ++ [newline], ok)) := by
  induction ls with
  | nil => rfl
  | cons l ls ih => simp [writesOf, ih]

theorem onMessage_decoded {σ : Type} (Unquote : Bytes → Option Bytes)
    (Write : σ → Bytes → σ × Bool) (s : σ) (message text : Bytes)
    (hmark : HasPrefix message marker = true) (hq : Unquote message = some text) :
    onMessage Unquote Write s message =
      { st := (writeLines Write s (Split (TrimPrefix text cmdLiteral))).1,
        effects := Effect.LogExecuting [] ::
          (writeLines Write s (Split (TrimPrefix text cmdLiteral))).2,
        flow := Flow.next } := by
  simp [onMessage, hmark, hq]

theorem onMessage_unmarked {σ : Type} (Unquote : Bytes → Option Bytes)
    (Write : σ → Bytes → σ × Bool) (s : σ) (message : Bytes)
    (hmark : HasPrefix message marker = false) :
    onMessage Unquote Write s message = { st := s, effects := [], flow := Flow.next } := by
  simp [onMessage, hmark]

theorem onMessage_undecodable {σ : Type} (Unquote : Bytes → Option Bytes)
    (Write : σ → Bytes → σ × Bool) (s : σ) (message : Bytes)
    (hmark : HasPrefix message marker = true) (hq : Unquote message = none) :
    onMessage Unquote Write s message =
      { st := s, effects := [Effect.PrintUnquoteError], flow := Flow.stop } := by
  simp [onMessage, hmark, hq]

end Remote

namespace Remote

theorem readLoop_next {σ : Type} (Unquote : Bytes → Option Bytes)
    (Write : σ → Bytes → σ × Bool) (s : σ) (message : Bytes) (later : List Bytes)
    (h : (onMessage Unquote Write s message).flow = Flow.next) :
    readLoop Unquote Write (message :: later) s =
      ((readLoop Unquote Write later (onMessage Unquote Write s message).st).1,
        Effect.ReadMessage (some message) ::
          ((onMessage Unquote Write s message).effects ++
            (readLoop Unquote Write later (onMessage Unquote Write s message).st).2)) := by
  simp [readLoop, h]

theorem readLoop_stop {σ : Type} (Unquote : Bytes → Option Bytes)
    (Write : σ → Bytes → σ × Bool) (s : σ) (message : Bytes) (later : List Bytes)
    (h : (onMessage Unquote Write s message).flow = Flow.stop) :
    readLoop Unquote Write (message :: later) s =
      ((onMessage Unquote Write s message).st,
        Effect.ReadMessage (some message) :: (onMessage Unquote Write s message).effects) := by
  simp [readLoop, h]

theorem readLoop_cut {σ : Type} (Unquote : Bytes → Option Bytes)
    (Write : σ → Bytes → σ × Bool) (message : Bytes)
    (hmark : HasPrefix message marker = true) (hq : Unquote message = none) :
    ∀ (earlier : List Bytes) (s : σ) (later later2 : List Bytes),
      readLoop Unquote Write (earlier ++ message :: later) s
        = readLoop Unquote Write (earlier ++ message :: later2) s := by
  intro earlier
  induction earlier with
  | nil =>
    intro s later later2
    have h := onMessage_undecodable Unquote Write s message hmark hq
    simp [readLoop, h]
  | cons e es ih =>
    intro s later later2
    cases hf : (onMessage Unquote Write s e).flow with
    | next =>
      simp only [List.cons_append]
      rw [readLoop_next _ _ _ _ _ hf, readLoop_next _ _ _ _ _ hf, ih _ later later2]
    | stop =>
      simp only [List.cons_append]
      rw [readLoop_stop _ _ _ _ _ hf, readLoop_stop _ _ _ _ _ hf]

theorem scanLoop_effects (tokens : List (Bytes × Bool)) :
    ∀ e ∈ (scanLoop tokens).1,
      e = Effect.SetWriteDeadline writeWait ∨ (∃ p ok, e = Effect.WriteText p ok) ∨
        e = Effect.Close := by
  induction tokens with
  | nil => intro e he; simp [scanLoop] at he
  | cons t ts ih =>
    intro e he
    obtain ⟨line, ok⟩ := t
    cases ok with
    | true =>
      simp only [scanLoop, if_true, List.mem_cons] at he
      rcases he with h | h | h
      · exact Or.inl h
      · exact Or.inr (Or.inl ⟨line, true, h⟩)
      · exact ih e h
    | false =>
      simp only [scanLoop, Bool.false_eq_true, if_false, List.mem_cons, List.mem_singleton,
        List.not_mem_nil, or_false] at he
      rcases he with h | h | h
      · exact Or.inl h
      · exact Or.inr (Or.inl ⟨line, false, h⟩)
      · exact Or.inr (Or.inr h)

theorem scanLoop_all_sent (tokens : List (Bytes × Bool)) (h : ∀ t ∈ tokens, t.2 = true) :
    Effect.Close ∉ (scanLoop tokens).1 ∧ (scanLoop tokens).2 = false := by
  induction tokens with
  | nil => simp [scanLoop]
  | cons t ts ih =>
    obtain ⟨line, ok⟩ := t
    have hok : ok = true := h (line, ok) (List.mem_cons_self _ _)
    subst hok
    have := ih (fun t ht => h t (List.mem_cons_of_mem _ ht))
    simp [scanLoop, this.1, this.2]

theorem scanLoop_failed_send (tokens : List (Bytes × Bool)) (h : ∃ t ∈ tokens, t.2 = false) :
    Effect.Close ∈ (scanLoop tokens).1 ∧ (scanLoop tokens).2 = true := by
  induction tokens with
  | nil => obtain ⟨t, ht, _⟩ := h; simp at ht
  | cons t ts ih =>
    obtain ⟨line, ok⟩ := t
    cases ok with
    | false => simp [scanLoop]
    | true =>
      have h2 : ∃ t ∈ ts, t.2 = false := by
        obtain ⟨t, ht, hf⟩ := h
        rcases List.mem_cons.mp ht with e | e
        · subst e; simp at hf
        · exact ⟨t, e, hf⟩
      have := ih h2
      simp [scanLoop, this.1, this.2]

end Remote

namespace Remote

/-- C3. Envelope decode in `pumpStdin`: for a received message that is the
quoted form of the text "Cmd: " followed by C (it starts with the marker and
`strconv.Unquote` returns "Cmd: " followed by C), provided no write made for
the message fails, the effects of the turn are the log line followed by one
successful write per piece of C split on newline, in order, each piece followed
by one newline byte; the turn then goes on to the next message. -/
theorem envelope_decode_writes {σ : Type} (Unquote : Bytes → Option Bytes)
    (Write : σ → Bytes → σ × Bool) (s : σ) (message C : Bytes)
    (hmark : HasPrefix message marker = true)
    (hq : Unquote message = some (cmdLiteral ++ C))
    (hok : ∀ e ∈ writesOf (onMessage Unquote Write s message).effects, e.2 = true) :
    writesOf (onMessage Unquote Write s message).effects
        = (Split C).map (fun l => (l ++ [newline], true)) ∧
      (onMessage Unquote Write s message).effects
        = Effect.LogExecuting [] ::
            (Split C).map (fun l => Effect.Write (l ++ [newline]) true) ∧
      (onMessage Unquote Write s message).flow = Flow.next := by
  have hdec := onMessage_decoded Unquote Write s message (cmdLiteral ++ C) hmark hq
  rw [TrimPrefix_append] at hdec
  rw [hdec] at hok ⊢
  simp only
  rcases writeLines_shape Write (Split C) s with h | ⟨pre, lk, post, _, h2⟩
  · rw [h]
    refine ⟨?_, ?_, ?_⟩ <;> simp [writesOf, writesOf_map_write]
  · exfalso
    have := hok (lk ++ [newline], false) (by
      simp only
      rw [h2]
      simp [writesOf, writesOf_append])
    simp at this

/-- Witness for `envelope_decode_writes`: the envelope of the two-line command
"ls", "pwd" with the sample decoder and a stream that never fails. -/
theorem envelope_decode_writes_witness :
    writesOf (onMessage unquoteSample storeWrite []
        (inQuotes (ascii "Cmd: ls\\npwd"))).effects
      = [(ascii "ls\n", true), (ascii "pwd\n", true)] :=
  (envelope_decode_writes unquoteSample storeWrite [] (inQuotes (ascii "Cmd: ls\\npwd"))
    (ascii "ls\npwd") (by decide) (by decide) (by decide)).1

/-- C4. Marker filter in `pumpStdin`: a received message that does not begin
with the marker causes no effect at all (no write, no error report), leaves the
subprocess input stream as it was, and the loop goes on to receive the next
message. -/
theorem marker_filter_skips {σ : Type} (Unquote : Bytes → Option Bytes)
    (Write : σ → Bytes → σ × Bool) (s : σ) (message : Bytes) (later : List Bytes)
    (hmark : HasPrefix message marker = false) :
    onMessage Unquote Write s message = { st := s, effects := [], flow := Flow.next } ∧
      readLoop Unquote Write (message :: later) s
        = ((readLoop Unquote Write later s).1,
            Effect.ReadMessage (some message) :: (readLoop Unquote Write later s).2) := by
  have h := onMessage_unmarked Unquote Write s message hmark
  refine ⟨h, ?_⟩
  rw [readLoop_next _ _ _ _ _ (by rw [h])]
  simp [h]

/-- Witness for `marker_filter_skips`: "hello" is skipped and the envelope after
it is processed. -/
theorem marker_filter_skips_witness :
    (readLoop unquoteSample storeWrite [ascii "hello", inQuotes (ascii "Cmd: ls")] []).2
      = [Effect.ReadMessage (some (ascii "hello")),
          Effect.ReadMessage (some (inQuotes (ascii "Cmd: ls"))),
          Effect.LogExecuting [], Effect.Write (ascii "ls\n") true,
          Effect.ReadMessage none] :=
  (congrArg Prod.snd (marker_filter_skips unquoteSample storeWrite [] (ascii "hello")
    [inQuotes (ascii "Cmd: ls")] (by decide)).2).trans (by decide)

/-- C5. Decode failure is fatal to the inbound direction: when a received
message begins with the marker and `strconv.Unquote` fails on it, the receive
loop ends at that message, with the error report as the only effect of the turn
and the subprocess input stream untouched; whatever messages would follow have
no influence on the run; the pump then only closes the connection. A message
without the marker never ends the loop. -/
theorem decode_failure_fatal {σ : Type} (Unquote : Bytes → Option Bytes)
    (Write : σ → Bytes → σ × Bool) (message : Bytes)
    (hmark : HasPrefix message marker = true) (hq : Unquote message = none) :
    (∀ (s : σ) (later : List Bytes),
      readLoop Unquote Write (message :: later) s
        = (s, [Effect.ReadMessage (some message), Effect.PrintUnquoteError])) ∧
    (∀ (s : σ) (later : List Bytes),
      pumpStdin Unquote Write (message :: later) s
        = (s, [Effect.SetReadLimit maxMessageSize, Effect.SetReadDeadline pongWait,
            Effect.SetPongHandler, Effect.ReadMessage (some message),
            Effect.PrintUnquoteError, Effect.Close])) ∧
    (∀ (s : σ) (earlier later later2 : List Bytes),
      pumpStdin Unquote Write (earlier ++ message :: later) s
        = pumpStdin Unquote Write (earlier ++ message :: later2) s) ∧
    (∀ (s : σ) (other : Bytes), HasPrefix other marker = false →
      (onMessage Unquote Write s other).flow = Flow.next) := by
  have hloop : ∀ (s : σ) (later : List Bytes),
      readLoop Unquote Write (message :: later) s
        = (s, [Effect.ReadMessage (some message), Effect.PrintUnquoteError]) := by
    intro s later
    have h := onMessage_undecodable Unquote Write s message hmark hq
    rw [readLoop_stop _ _ _ _ _ (by rw [h])]
    simp [h]
  refine ⟨hloop, ?_, ?_, ?_⟩
  · intro s later
    simp [pumpStdin, hloop]
  · intro s earlier later later2
    simp only [pumpStdin]
    rw [readLoop_cut Unquote Write message hmark hq earlier s later later2]
  · intro s other ho
    rw [onMessage_unmarked Unquote Write s other ho]

/-- Witness for `decode_failure_fatal`: an envelope with the unknown escape
backslash-x ends the loop before the envelope after it is read. -/
theorem decode_failure_fatal_witness :
    pumpStdin unquoteSample storeWrite
        [inQuotes (ascii "Cmd: \\x"), inQuotes (ascii "Cmd: ls")] []
      = ([], [Effect.SetReadLimit maxMessageSize, Effect.SetReadDeadline pongWait,
            Effect.SetPongHandler, Effect.ReadMessage (some (inQuotes (ascii "Cmd: \\x"))),
            Effect.PrintUnquoteError, Effect.Close]) :=
  (decode_failure_fatal unquoteSample storeWrite (inQuotes (ascii "Cmd: \\x"))
    (by decide) (by decide)).2.1 [] [inQuotes (ascii "Cmd: ls")]

end Remote

namespace Remote

theorem failed_write_index (pre : List Bytes) (x : Bytes × Bool) :
    ∀ (k : Nat) (d : Bytes),
      (pre.map (fun l => (l ++ [newline], true)) ++ [x])[k]? = some (d, false) →
      k = pre.length ∧ x = (d, false) := by
  induction pre with
  | nil =>
    intro k d h
    cases k with
    | zero => simp at h; simp [h]
    | succ n => simp at h
  | cons a as ih =>
    intro k d h
    cases k with
    | zero => simp at h
    | succ n =>
      have h2 : (as.map (fun l => (l ++ [newline], true)) ++ [x])[n]? = some (d, false) := by
        simpa using h
      obtain ⟨e1, e2⟩ := ih n d h2
      exact ⟨by simp [e1], e2⟩

theorem all_ok_index (ls : List Bytes) :
    ∀ (k : Nat) (d : Bytes),
      (ls.map (fun l => (l ++ [newline], true)))[k]? ≠ some (d, false) := by
  induction ls with
  | nil => intro k d h; simp at h
  | cons a as ih =>
    intro k d h
    cases k with
    | zero => simp at h
    | succ n =>
      rw [List.map_cons, List.getElem?_cons_succ] at h
      exact ih n d h

/-- C6. Partial-failure policy of `pumpStdin`: for a decoded message, if the
write number k (counting from 0) made for it fails, then that write is the one
of line k of the message, the writes made before it are the lines before line
k, in order and all successful, no write is made after it, and the receive loop
does not end but goes on with the messages that follow. -/
theorem write_failure_aborts_message {σ : Type} (Unquote : Bytes → Option Bytes)
    (Write : σ → Bytes → σ × Bool) (s : σ) (message text : Bytes) (later : List Bytes)
    (hmark : HasPrefix message marker = true) (hq : Unquote message = some text)
    (k : Nat) (d : Bytes)
    (hfail : (writesOf (onMessage Unquote Write s message).effects)[k]? = some (d, false)) :
    ∃ lk, (Split (TrimPrefix text cmdLiteral))[k]? = some lk ∧ d = lk ++ [newline] ∧
      writesOf (onMessage Unquote Write s message).effects
        = ((Split (TrimPrefix text cmdLiteral)).take k).map (fun l => (l ++ [newline], true))
            ++ [(lk ++ [newline], false)] ∧
      (onMessage Unquote Write s message).flow = Flow.next ∧
      readLoop Unquote Write (message :: later) s
        = ((readLoop Unquote Write later (onMessage Unquote Write s message).st).1,
            Effect.ReadMessage (some message) ::
              ((onMessage Unquote Write s message).effects ++
                (readLoop Unquote Write later (onMessage Unquote Write s message).st).2)) := by
  have hdec := onMessage_decoded Unquote Write s message text hmark hq
  have hflow : (onMessage Unquote Write s message).flow = Flow.next := by rw [hdec]
  have hw : writesOf (onMessage Unquote Write s message).effects
      = writesOf (writeLines Write s (Split (TrimPrefix text cmdLiteral))).2 := by
    rw [hdec]; rfl
  rw [hw] at hfail ⊢
  rcases writeLines_shape Write (Split (TrimPrefix text cmdLiteral)) s with
    h | ⟨pre, lk, post, e1, e2⟩
  · rw [h, writesOf_map_write] at hfail
    exact absurd hfail (all_ok_index _ k d)
  · rw [e2, writesOf_append, writesOf_map_write] at hfail ⊢
    simp only [writesOf] at hfail ⊢
    obtain ⟨hk, hx⟩ := failed_write_index pre _ k d hfail
    have hd : d = lk ++ [newline] := by
      have := congrArg Prod.fst hx
      simpa using this.symm
    refine ⟨lk, ?_, hd, ?_, hflow, readLoop_next _ _ _ _ _ hflow⟩
    · rw [e1, hk, List.getElem?_append_right (Nat.le_refl _)]; simp
    · rw [e1, hk]; simp

/-- Witness for `write_failure_aborts_message`: a stream that takes one write
and then fails, fed the three-line command a, b, c and then a second envelope:
the write of "b" fails, "c" is never written, the second envelope is read. -/
theorem write_failure_aborts_message_witness :
    writesOf (onMessage unquoteSample budgetWrite 1
        (inQuotes (ascii "Cmd: a\\nb\\nc"))).effects
      = [(ascii "a\n", true), (ascii "b\n", false)] ∧
    (readLoop unquoteSample budgetWrite
        [inQuotes (ascii "Cmd: a\\nb\\nc"), inQuotes (ascii "Cmd: x")] 1).2
      = [Effect.ReadMessage (some (inQuotes (ascii "Cmd: a\\nb\\nc"))),
          Effect.LogExecuting [], Effect.Write (ascii "a\n") true,
          Effect.Write (ascii "b\n") false,
          Effect.ReadMessage (some (inQuotes (ascii "Cmd: x"))),
          Effect.LogExecuting [], Effect.Write (ascii "x\n") false,
          Effect.ReadMessage none] := by
  obtain ⟨lk, h1, _, h3, _, h5⟩ :=
    write_failure_aborts_message unquoteSample budgetWrite 1
      (inQuotes (ascii "Cmd: a\\nb\\nc")) (ascii "Cmd: a\nb\nc")
      [inQuotes (ascii "Cmd: x")] (by decide) (by decide) 1 (ascii "b\n") (by decide)
  have hlk : lk = ascii "b" := by
    have h1b : (Split (TrimPrefix (ascii "Cmd: a\nb\nc") cmdLiteral))[1]? = some (ascii "b") := by
      decide
    exact Option.some.inj (h1.symm.trans h1b)
  subst hlk
  refine ⟨h3.trans (by decide), ?_⟩
  rw [h5]
  decide

/-- C7 as stated fails: for the envelope of the empty command the decoded text
after removing "Cmd: " is empty, yet splitting it gives one (empty) line, not
none, and `pumpStdin` makes one write, of a lone newline. -/
theorem empty_payload_is_one_line :
    unquoteSample (inQuotes (ascii "Cmd: ")) = some (ascii "Cmd: ") ∧
    TrimPrefix (ascii "Cmd: ") cmdLiteral = [] ∧
    Split [] ≠ [] ∧ (Split []).length = 1 ∧
    writesOf (onMessage unquoteSample storeWrite [] (inQuotes (ascii "Cmd: "))).effects
      = [([newline], true)] := by
  decide

/-- C7 (amended). When the decoded command text after removing "Cmd: " is
empty, decode produces the one-element sequence holding the empty line and
`pumpStdin` makes exactly one write for the message, of a lone newline. In
general decode splits on newline boundaries preserving order: joining the
pieces with newlines gives back the payload, no piece holds a newline, and
there is one more piece than there are newlines. -/
theorem empty_payload_one_write {σ : Type} (Unquote : Bytes → Option Bytes)
    (Write : σ → Bytes → σ × Bool) (s : σ) (message text : Bytes)
    (hmark : HasPrefix message marker = true) (hq : Unquote message = some text)
    (hempty : TrimPrefix text cmdLiteral = []) :
    Split (TrimPrefix text cmdLiteral) = [[]] ∧
    writesOf (onMessage Unquote Write s message).effects
      = [([newline], (Write s [newline]).2)] ∧
    (∀ p : Bytes, Join (Split p) = p ∧ (∀ l ∈ Split p, newline ∉ l) ∧
      (Split p).length = p.count newline + 1) := by
  refine ⟨by rw [hempty]; rfl, ?_, fun p => ⟨Join_Split p, Split_pieces p, Split_length p⟩⟩
  rw [onMessage_decoded Unquote Write s message text hmark hq, hempty]
  by_cases hw : (Write s [newline]).2 = true
  · simp [Split, writeLines, writesOf, hw]
  · simp [Split, writeLines, writesOf, hw]

/-- Witness for `empty_payload_one_write`. -/
theorem empty_payload_one_write_witness :
    writesOf (onMessage unquoteSample storeWrite [] (inQuotes (ascii "Cmd: "))).effects
      = [([newline], true)] :=
  (empty_payload_one_write unquoteSample storeWrite [] (inQuotes (ascii "Cmd: "))
    (ascii "Cmd: ") (by decide) (by decide) (by decide)).2.1

/-- C8 (amended). Shutdown order of `pumpStdout`: on every run (end of
stream, scan error or failed send) the effects end with: `done` closed, write
deadline set, write of a Close frame with the normal-closure code 1000, sleep
of 10 seconds, `ws.Close()`; `done` is closed exactly once; before that tail
there are only the deadline settings, text sends and connection closes of the
scan loop and the scan error log. When no send failed, no connection close
comes before the Close frame, and the frame is written on the open connection.
When a send failed, the connection has been closed in the loop, before the
tail, and the write of the Close frame fails: no frame is sent. -/
theorem shutdown_order (tokens : List (Bytes × Bool)) (scanErr frameOk : Bool) :
    ∃ pre sent, pumpStdout tokens scanErr frameOk
        = pre ++ [Effect.CloseDone, Effect.SetWriteDeadline writeWait,
            Effect.WriteClose 1000 [] sent, Effect.Sleep (10 * 1000000000), Effect.Close] ∧
      (∀ e ∈ pre, e = Effect.SetWriteDeadline writeWait ∨ (∃ p ok, e = Effect.WriteText p ok) ∨
        e = Effect.Close ∨ e = Effect.LogScan) ∧
      (pumpStdout tokens scanErr frameOk).count Effect.CloseDone = 1 ∧
      ((∀ t ∈ tokens, t.2 = true) → Effect.Close ∉ pre ∧ sent = frameOk) ∧
      ((∃ t ∈ tokens, t.2 = false) → Effect.Close ∈ pre ∧ sent = false) := by
  have hpre : ∀ e ∈ (scanLoop tokens).1 ++ (if scanErr = true then [Effect.LogScan] else []),
      e = Effect.SetWriteDeadline writeWait ∨ (∃ p ok, e = Effect.WriteText p ok) ∨
        e = Effect.Close ∨ e = Effect.LogScan := by
    intro e he
    rcases List.mem_append.mp he with h | h
    · rcases scanLoop_effects tokens e h with a | a | a
      · exact Or.inl a
      · exact Or.inr (Or.inl a)
      · exact Or.inr (Or.inr (Or.inl a))
    · split at h
      · simp at h; exact Or.inr (Or.inr (Or.inr h))
      · simp at h
  refine ⟨(scanLoop tokens).1 ++ (if scanErr = true then [Effect.LogScan] else []),
    (!(scanLoop tokens).2 && frameOk), rfl, hpre, ?_, ?_, ?_⟩
  · have hnot : Effect.CloseDone ∉ (scanLoop tokens).1 ++
        (if scanErr = true then [Effect.LogScan] else []) := by
      intro hmem
      rcases hpre _ hmem with a | ⟨_, _, a⟩ | a | a <;> cases a
    simp only [pumpStdout, shutdownSequence, List.count_append, List.count_eq_zero_of_not_mem hnot]
    simp [List.count_cons]
  · intro hall
    refine ⟨?_, ?_⟩
    · intro hmem
      rcases List.mem_append.mp hmem with h | h
      · exact (scanLoop_all_sent tokens hall).1 h
      · split at h <;> simp at h
    · simp [(scanLoop_all_sent tokens hall).2]
  · intro hsome
    refine ⟨List.mem_append_left _ (scanLoop_failed_send tokens hsome).1, ?_⟩
    simp [(scanLoop_failed_send tokens hsome).2]

/-- C8 as stated fails on a failed send: the connection is closed inside the
loop, before `done` is closed and before the Close frame, and the write of the
Close frame then fails, so no frame is sent. -/
theorem failed_send_closes_before_close_frame :
    pumpStdout [(ascii "a", false)] false true
      = [Effect.SetWriteDeadline writeWait, Effect.WriteText (ascii "a") false, Effect.Close,
          Effect.CloseDone, Effect.SetWriteDeadline writeWait,
          Effect.WriteClose 1000 [] false, Effect.Sleep (10 * 1000000000), Effect.Close] := by
  decide

/-- C9. Line framer round trip: a line L without newline byte is sent by the
outbound pump as one text message whose payload is exactly L, and splitting
that payload on newline gives back the one-element sequence [L]. -/
theorem line_round_trip (L : Bytes) (ok scanErr frameOk : Bool) (h : newline ∉ L) :
    payloadsOf (pumpStdout [(L, ok)] scanErr frameOk) = [L] ∧
    (payloadsOf (pumpStdout [(L, ok)] scanErr frameOk)).map Split = [[L]] := by
  have hp : payloadsOf (pumpStdout [(L, ok)] scanErr frameOk) = [L] := by
    cases ok <;> cases scanErr <;>
      simp [pumpStdout, scanLoop, shutdownSequence, payloadsOf]
  rw [hp]
  exact ⟨rfl, by simp [Split_no_newline L h]⟩

/-- Witness for `line_round_trip`. -/
theorem line_round_trip_witness :
    (payloadsOf (pumpStdout [(ascii "total 12", true)] false true)).map Split
      = [[ascii "total 12"]] :=
  (line_round_trip (ascii "total 12") true false true (by decide)).2

end Remote
